import Mathlib

/-!
Shallow embedding of the filter-and-present engine of
`src/streamlit_app.py` (streamlit-jobs-viewer).

A pandas DataFrame is modelled as a `Frame`: a list of column names plus a
list of rows, where a row is an association list from column name to cell.
A cell is `Option String`: `none` models a missing value (pandas `NaN` or
`NaT`), `some s` a string value.  The four salary columns are coerced by
the source (`pd.to_numeric`) but are never read by any downstream
operation that the claims mention, so their numeric coercion is not
modelled.  Character-level operations (`lower`, whitespace) are modelled
for the ASCII fragment, which is the fragment every concrete value in the
source and the claims uses.
-/

namespace JobsViewer

/-- A cell of a data frame: `none` is pandas `NaN`/`NaT`. -/
abbrev Cell := Option String

/-- A row: association list from column name to cell. -/
abbrev Row := List (String × Cell)

/-- A data frame: column names (in order) plus rows. -/
structure Frame where
  cols : List String
  rows : List Row
deriving Repr, DecidableEq

/-- `df[col]` for one row: the cell, with an absent column read as `NaN`. -/
def cellOf (r : Row) (c : String) : Cell :=
  (r.lookup c).join

/-- Whether a row has an entry for a column at all (column presence). -/
def hasEntry (r : Row) (c : String) : Bool :=
  (r.lookup c).isSome

/-- `df[col] = v` on one row: replace (or create) the binding for `c`. -/
def setCol (r : Row) (c : String) (v : Cell) : Row :=
  r.filter (fun p => p.1 != c) ++ [(c, v)]

/-- Append a column name if it is not already present
(pandas adds newly assigned columns at the end, keeps existing position). -/
def colsAdd (cols : List String) (c : String) : List String :=
  if cols.contains c then cols else cols ++ [c]

/-! ### Text matching

`Series.str.contains(pat)` in pandas runs `re.search(pat, value)`
(`regex=True` is the default).  `reSearchL` models Python `re.search` for
the fragment of patterns whose characters are either literal characters or
the wildcard `.` (which matches any character except a newline); every
pattern appearing in a theorem below lies in that fragment.  Literal
(non-regex) substring containment, which the spec describes, is modelled
separately by `containsSub`. -/

/-- One regex step: does the pattern match a prefix of the text?
Pattern characters are literals except `.`, which matches any
character other than a newline (Python `re`, no DOTALL). -/
def reMatchHere : List Char → List Char → Bool
  | [], _ => true
  | _ :: _, [] => false
  | p :: ps, c :: cs =>
      (if p = '.' then c != '\n' else p == c) && reMatchHere ps cs

/-- Python `re.search`: the pattern matches starting at some position. -/
def reSearchL (pat : List Char) : List Char → Bool
  | [] => reMatchHere pat []
  | c :: cs => reMatchHere pat (c :: cs) || reSearchL pat cs

/-- Literal list-prefix test (spec-side helper for substring containment). -/
def prefixEq : List Char → List Char → Bool
  | [], _ => true
  | _ :: _, [] => false
  | p :: ps, c :: cs => p == c && prefixEq ps cs

/-- Modelled from the spec: literal substring containment
(`needle` occurs contiguously in `hay`). -/
def containsSub (needle : List Char) : List Char → Bool
  | [] => prefixEq needle []
  | c :: cs => prefixEq needle (c :: cs) || containsSub needle cs

/-- The Python regex metacharacters.  A pattern avoiding all of them is
read by `re` as a literal string. -/
def regexMeta : List Char :=
  ['.', '^', '$', '*', '+', '?', '\x7b', '\x7d', '[', ']', '(', ')', '|', '\\']

/-- Lowercase a string (models Python `str.lower` on the ASCII fragment). -/
def lowerL (s : String) : List Char :=
  s.data.map Char.toLower

/-- Models Python `not str(s).strip()`: true iff the string has no
non-whitespace character (so its `strip()` is empty / falsy). -/
def isBlank (s : String) : Bool :=
  s.data.all (fun c => c.isWhitespace)

/-! ### Filter criteria and the filter pipeline (source lines 277-319) -/

/-- The values collected by the filter widgets: a title query `q`,
multiselect lists, a location query, and a tech-stack query. -/
structure FilterCriteria where
  q : String
  companies : List String
  seniority : List String
  jobTypes : List String
  remote : List String
  locationQ : String
  tz : List String
  techQ : String
deriving Repr, DecidableEq

/-- The `FilterCriteria` with every widget left at its initial value. -/
def emptyCriteria : FilterCriteria :=
  { q := "", companies := [], seniority := [], jobTypes := [], remote := [],
    locationQ := "", tz := [], techQ := "" }

/-- `filtered["title"].fillna("").str.lower().str.contains(q.lower())`. -/
def titlePred (q : String) (r : Row) : Bool :=
  reSearchL (lowerL q) (lowerL ((cellOf r "title").getD ""))

/-- `filtered[col].isin(sel)`: `NaN` is never a member. -/
def isinPred (col : String) (sel : List String) (r : Row) : Bool :=
  match cellOf r col with
  | some v => sel.contains v
  | none => false

/-- `filtered["location"].fillna("").str.lower().str.contains(loc.lower())`. -/
def locationPred (lq : String) (r : Row) : Bool :=
  reSearchL (lowerL lq) (lowerL ((cellOf r "location").getD ""))

/-- The five tech-stack columns, in the order the source lists them. -/
def techCols : List String :=
  ["tech_stack.languages", "tech_stack.frameworks", "tech_stack.data",
   "tech_stack.cloud", "tech_stack.ml"]

/-- The tech-stack mask for one row: OR over the five tech columns of
`filtered[col].fillna("").str.lower().str.contains(t.lower())`. -/
def techPred (t : String) (r : Row) : Bool :=
  techCols.any (fun col => reSearchL (lowerL t) (lowerL ((cellOf r col).getD "")))

/-- One guarded step of the pipeline: `if flag: filtered = filtered[mask]`.
`skip` is the falsiness of the widget value (empty string / empty list). -/
def gatedFilter (skip : Bool) (p : Row → Bool) (l : List Row) : List Row :=
  if skip then l else l.filter p

/-- The filter pipeline of source lines 277-319, applied in source order:
title query, company, seniority, job type, remote policy, location,
timezone, tech stack.  Each step keeps the rows passing its mask, in
order. -/
def applyFilters (c : FilterCriteria) (rows : List Row) : List Row :=
  let f1 := gatedFilter (c.q == "") (titlePred c.q) rows
  let f2 := gatedFilter c.companies.isEmpty (isinPred "company" c.companies) f1
  let f3 := gatedFilter c.seniority.isEmpty (isinPred "seniority_norm" c.seniority) f2
  let f4 := gatedFilter c.jobTypes.isEmpty (isinPred "job_type" c.jobTypes) f3
  let f5 := gatedFilter c.remote.isEmpty (isinPred "remote_policy" c.remote) f4
  let f6 := gatedFilter (c.locationQ == "") (locationPred c.locationQ) f5
  let f7 := gatedFilter c.tz.isEmpty (isinPred "timezone_overlap" c.tz) f6
  gatedFilter (c.techQ == "") (techPred c.techQ) f7

/-- A row satisfies every non-empty criterion: each conjunct is
"criterion not supplied, or its mask passes". -/
def rowPasses (c : FilterCriteria) (r : Row) : Bool :=
  ((c.q == "") || titlePred c.q r) &&
  (c.companies.isEmpty || isinPred "company" c.companies r) &&
  (c.seniority.isEmpty || isinPred "seniority_norm" c.seniority r) &&
  (c.jobTypes.isEmpty || isinPred "job_type" c.jobTypes r) &&
  (c.remote.isEmpty || isinPred "remote_policy" c.remote r) &&
  ((c.locationQ == "") || locationPred c.locationQ r) &&
  (c.tz.isEmpty || isinPred "timezone_overlap" c.tz r) &&
  ((c.techQ == "") || techPred c.techQ r)

/-! ### Normalizer: `load_jobs` (source lines 79-113)

`pd.to_datetime(..., errors="coerce", utc=True)` is modelled for the
date-only ISO fragment `YYYY-MM-DD` (strict digits, calendar-valid month
and day); any other input coerces to `NaT` (`none`).  A parsed date is
represented by the sort key `y*10000 + m*100 + d`, which orders exactly as
the instant does for date-only inputs, and `strftime("%Y-%m-%d")` is
modelled by `renderDate`, which zero-pads back to `YYYY-MM-DD`. -/

/-- Numeric value of an ASCII digit. -/
def digitVal (c : Char) : Nat :=
  c.toNat - 48

/-- Days in a month, with the Gregorian leap rule (as `pandas` validates). -/
def daysInMonth (y m : Nat) : Nat :=
  if m = 2 then
    if y % 4 = 0 && (y % 100 != 0 || y % 400 = 0) then 29 else 28
  else if m = 4 || m = 6 || m = 9 || m = 11 then 30
  else 31

/-- Models `pd.to_datetime(s, errors="coerce", utc=True)` on the
`YYYY-MM-DD` fragment: `some key` for a calendar-valid ISO date,
`none` (`NaT`) otherwise. -/
def parseDate (s : String) : Option Nat :=
  match s.data with
  | [y1, y2, y3, y4, h1, m1, m2, h2, d1, d2] =>
      if h1 = '-' && h2 = '-' &&
         y1.isDigit && y2.isDigit && y3.isDigit && y4.isDigit &&
         m1.isDigit && m2.isDigit && d1.isDigit && d2.isDigit then
        let y := ((digitVal y1 * 10 + digitVal y2) * 10 + digitVal y3) * 10 + digitVal y4
        let m := digitVal m1 * 10 + digitVal m2
        let d := digitVal d1 * 10 + digitVal d2
        if 1 ≤ m && m ≤ 12 && 1 ≤ d && d ≤ daysInMonth y m then
          some (y * 10000 + m * 100 + d)
        else none
      else none
  | _ => none

/-- The ASCII digit character for `n % 10`. -/
def digitChar (n : Nat) : Char :=
  Char.ofNat (48 + n % 10)

/-- Models `dt.strftime("%Y-%m-%d")` on a sort key: the fixed ten-character
`YYYY-MM-DD` rendering. -/
def renderDate (k : Nat) : String :=
  String.mk [digitChar (k / 10000000), digitChar (k / 1000000),
             digitChar (k / 100000), digitChar (k / 10000), '-',
             digitChar (k / 1000), digitChar (k / 100), '-',
             digitChar (k / 10), digitChar k]

/-- The derived sort key of a row: `posted_at` parsed as a timestamp
(the `posted_at_dt` column; `none` is `NaT`). -/
def rowSortKey (r : Row) : Option Nat :=
  (cellOf r "posted_at").bind parseDate

/-- Adds the two derived columns of the `posted_at` branch:
`posted_at_dt` (the timestamp, `NaT` when unparsable, stored as its
`YYYY-MM-DD` rendering) and `posted_date` (`strftime`, `NaN` on `NaT`). -/
def addDateCols (r : Row) : Row :=
  let key := rowSortKey r
  setCol (setCol r "posted_at_dt" (key.map renderDate)) "posted_date"
    (key.map renderDate)

/-- Descending comparison on the (present) sort keys of two rows. -/
def keyDescRel (a b : Row) : Prop :=
  (rowSortKey b).getD 0 ≤ (rowSortKey a).getD 0

instance : DecidableRel keyDescRel :=
  fun _ _ => Nat.decLe _ _

instance : IsTotal Row keyDescRel :=
  ⟨fun _ _ => Nat.le_total _ _⟩

instance : IsTrans Row keyDescRel :=
  ⟨fun _ _ _ h1 h2 => Nat.le_trans h2 h1⟩

/-- `df.sort_values("posted_at_dt", ascending=False)`: rows with a valid
timestamp sorted descending by it, followed by the `NaT` rows in their
original order (pandas `nargsort` with `na_position="last"` appends the
masked indices in ascending position order). -/
def sortByKeyDesc (rows : List Row) : List Row :=
  (rows.filter (fun r => (rowSortKey r).isSome)).insertionSort keyDescRel
    ++ rows.filter (fun r => (rowSortKey r).isNone)

/-- The columns the source backfills with `""` when absent
(source lines 97-111, in loop order): `location` plus the nine optional
columns of the spec. -/
def backfillCols : List String :=
  ["seniority_norm", "location", "remote_policy", "timezone_overlap",
   "job_type", "tech_stack.languages", "tech_stack.frameworks",
   "tech_stack.data", "tech_stack.cloud", "tech_stack.ml"]

/-- `df[col] = ""` for each missing column: append `(col, "")` bindings. -/
def backfillRow (missing : List String) (r : Row) : Row :=
  missing.foldl (fun acc c => setCol acc c (some "")) r

/-- The columns of the `posted_at` branch before backfill. -/
def postedCols (raw : Frame) : List String :=
  colsAdd (colsAdd raw.cols "posted_at_dt") "posted_date"

/-- The backfill list of the `posted_at` branch: the optional columns the
table still lacks, in loop order. -/
def postedMissing (raw : Frame) : List String :=
  backfillCols.filter (fun c => !((postedCols raw).contains c))

/-- The columns of the no-`posted_at` branch before backfill. -/
def noPostedCols (raw : Frame) : List String :=
  colsAdd raw.cols "posted_date"

/-- The backfill list of the no-`posted_at` branch. -/
def noPostedMissing (raw : Frame) : List String :=
  backfillCols.filter (fun c => !((noPostedCols raw).contains c))

/-- `load_jobs` (without the unexercised salary coercion): derive the date
columns and sort when `posted_at` exists (else set `posted_date` to `""`),
then backfill the missing optional columns with `""`. -/
def loadJobs (raw : Frame) : Frame :=
  if raw.cols.contains "posted_at" then
    { cols := postedCols raw ++ postedMissing raw,
      rows := (sortByKeyDesc (raw.rows.map addDateCols)).map
        (backfillRow (postedMissing raw)) }
  else
    { cols := noPostedCols raw ++ noPostedMissing raw,
      rows := (raw.rows.map (fun r => setCol r "posted_date" (some ""))).map
        (backfillRow (noPostedMissing raw)) }

/-- `load_jobs` with the recency sort removed: the same canonical rows in
their raw order.  Used only to state that sorting is a permutation and
that the rows lacking a sort key keep their original relative order. -/
def loadJobsUnsorted (raw : Frame) : Frame :=
  if raw.cols.contains "posted_at" then
    { cols := postedCols raw ++ postedMissing raw,
      rows := (raw.rows.map addDateCols).map (backfillRow (postedMissing raw)) }
  else
    { cols := noPostedCols raw ++ noPostedMissing raw,
      rows := (raw.rows.map (fun r => setCol r "posted_date" (some ""))).map
        (backfillRow (noPostedMissing raw)) }

/-- The order the canonical table is claimed to have: descending by sort
key, with rows lacking a key after every row that has one. -/
def postedGe (a b : Row) : Prop :=
  match rowSortKey a, rowSortKey b with
  | some x, some y => y ≤ x
  | some _, none => True
  | none, none => True
  | none, some _ => False

/-! ### Vocabulary extraction (source lines 138-159) -/

/-- `Series.unique()`: distinct values in first-occurrence order. -/
def pdUniqueAux (seen : List String) : List String → List String
  | [] => []
  | x :: xs =>
      if seen.contains x then pdUniqueAux seen xs
      else x :: pdUniqueAux (x :: seen) xs

/-- `Series.unique()` over the non-null cells of a column. -/
def pdUnique (l : List String) : List String :=
  pdUniqueAux [] l

/-- The option list built from the cells of one column:
`sorted(s for s in col.dropna().unique() if str(s).strip() and ...)`.
`exclUnspecified` is true only for the seniority column, whose
comprehension also requires `str(s).lower() != "unspecified"`. -/
def vocabulary (cells : List Cell) (exclUnspecified : Bool) : List String :=
  ((pdUnique (cells.filterMap id)).filter
      (fun s => !(isBlank s) &&
        (!exclUnspecified || String.mk (lowerL s) != "unspecified"))).insertionSort
    (fun a b => a ≤ b)

/-- The cells of one column of a frame. -/
def columnCells (f : Frame) (c : String) : List Cell :=
  f.rows.map (fun r => cellOf r c)

/-! ### Presenter (source lines 324-396) -/

/-- `REMOTE_LABELS` (source lines 56-62). -/
def REMOTE_LABELS : List (String × String) :=
  [("hybrid", "Hybrid"), ("on_site", "On-site"),
   ("remote_first", "Remote-first"), ("remote_only", "Remote-only"),
   ("unspecified", "Unspecified")]

/-- `SENIORITY_LABELS` (source lines 64-76). -/
def SENIORITY_LABELS : List (String × String) :=
  [("intern", "Intern"), ("junior", "Junior"), ("mid", "Mid-level"),
   ("senior", "Senior"), ("staff", "Staff"), ("principal", "Principal"),
   ("lead", "Lead"), ("manager", "Manager"), ("director", "Director"),
   ("vp", "VP"), ("c_level", "C-level")]

/-- `col.map(labels).fillna(col).fillna("")`: a mapped code becomes its
label, an unmapped code stays the raw code, and `NaN` becomes `""`. -/
def prettyCell (labels : List (String × String)) (cell : Cell) : Cell :=
  match cell with
  | some v => some ((labels.lookup v).getD v)
  | none => some ""

/-- `display_cols` (source lines 346-357), in display order. -/
def displayCols : List String :=
  ["title", "company", "location", "seniority_pretty", "job_type",
   "remote_policy_pretty", "timezone_overlap", "posted_date", "source",
   "link"]

/-- `col_labels` / the `download_df.rename` mapping: display label of a
column, defaulting to the column name itself. -/
def colLabel (c : String) : String :=
  (([("title", "Job title"), ("company", "Company"),
     ("location", "Location"), ("seniority_pretty", "Seniority"),
     ("job_type", "Job type"), ("remote_policy_pretty", "Remote policy"),
     ("timezone_overlap", "Timezone overlap"), ("posted_date", "Posted"),
     ("source", "Source"), ("link", "Apply / Job link")] :
      List (String × String)).lookup c).getD c

/-- The Presenter: add the two pretty columns, then project onto the
display columns that exist (`existing_cols`), in display order.
(The `astype("string")` coercions do not change string cells.) -/
def presentFrame (f : Frame) : Frame :=
  let rows1 := f.rows.map (fun r =>
    setCol (setCol r "remote_policy_pretty"
        (prettyCell REMOTE_LABELS (cellOf r "remote_policy")))
      "seniority_pretty" (prettyCell SENIORITY_LABELS (cellOf r "seniority_norm")))
  let cols1 := colsAdd (colsAdd f.cols "remote_policy_pretty") "seniority_pretty"
  let existing := displayCols.filter (fun c => cols1.contains c)
  { cols := existing,
    rows := rows1.map (fun r => existing.map (fun c => (c, cellOf r c))) }

/-! ### Exporter: `to_csv(index=False, sep=";")` (source lines 400-417)

`DataFrame.to_csv` writes through the Python `csv` module with minimal
quoting: a field is emitted verbatim unless it contains the delimiter, a
double quote, or a line break, in which case it is wrapped in double
quotes with embedded quotes doubled.  Rows are terminated with a newline.
`parseCsv` models `csv.reader` / `pd.read_csv` field splitting on such
well-formed output. -/

/-- Whether `to_csv` must quote this field (minimal quoting). -/
def needsQuote (sep : Char) (s : String) : Bool :=
  s.data.any (fun c => c == sep || c == '"' || c == '\n' || c == '\r')

/-- Double every embedded double quote. -/
def escQuotes : List Char → List Char
  | [] => []
  | c :: cs => if c = '"' then '"' :: '"' :: escQuotes cs else c :: escQuotes cs

/-- Render one field, quoting it only when required. -/
def escapeField (sep : Char) (s : String) : List Char :=
  if needsQuote sep s then '"' :: (escQuotes s.data ++ ['"'])
  else s.data

/-- Render one record: fields joined by the delimiter. -/
def renderRecord (sep : Char) : List String → List Char
  | [] => []
  | [f] => escapeField sep f
  | f :: g :: fs => escapeField sep f ++ sep :: renderRecord sep (g :: fs)

/-- Render a table: one line per record, each terminated by a newline. -/
def renderCsv (sep : Char) (rows : List (List String)) : List Char :=
  (rows.map (fun r => renderRecord sep r ++ ['\n'])).flatten

/-- The delimited-text reader state machine (models `csv.reader` on
well-formed input): `inq` is the inside-quotes state, `field` the
characters of the current field, `row` the completed fields of the
current record, `acc` the completed records. -/
def csvAux (sep : Char) (inq : Bool) (field : List Char) (row : List String)
    (acc : List (List String)) : List Char → List (List String)
  | [] =>
      if field.isEmpty && row.isEmpty then acc
      else acc ++ [row ++ [String.mk field]]
  | c :: cs =>
      if inq then
        if c = '"' then
          match cs with
          | '"' :: cs2 => csvAux sep true (field ++ ['"']) row acc cs2
          | cs2 => csvAux sep false field row acc cs2
        else csvAux sep true (field ++ [c]) row acc cs
      else
        if c = '"' then csvAux sep true field row acc cs
        else if c = sep then csvAux sep false [] (row ++ [String.mk field]) acc cs
        else if c = '\n' then
          csvAux sep false [] [] (acc ++ [row ++ [String.mk field]]) cs
        else csvAux sep false (field ++ [c]) row acc cs
termination_by l => l.length
decreasing_by all_goals simp_arith

/-- Parse delimited text into records of fields. -/
def parseCsv (sep : Char) (s : List Char) : List (List String) :=
  csvAux sep false [] [] [] s

/-- The header row of the export: the display label of each presented
column (`download_df.rename` then `to_csv` header). -/
def exportLabels (f : Frame) : List String :=
  f.cols.map colLabel

/-- The data rows of the export: each presented cell as the string
`to_csv` writes for it (`NaN` is written as the empty string). -/
def exportRows (f : Frame) : List (List String) :=
  f.rows.map (fun r => f.cols.map (fun c => (cellOf r c).getD ""))

/-- `download_df.to_csv(index=False, sep=";")` on the presented frame:
header row of display labels, then one line per record, `;`-delimited. -/
def exportText (f : Frame) : List Char :=
  renderCsv ';' (exportLabels f :: exportRows f)

/-! ### Top-level request flow (source lines 116-125, 277-424) -/

/-- The outcome of one request: either the structured
"data unavailable" stop (`st.error` + `st.stop`, source lines 116-122),
or a page showing a presented table and offering its export. -/
inductive AppResult where
  | sourceUnavailable : String → AppResult
  | page : Frame → List Char → AppResult
deriving Repr, DecidableEq

/-- The `st.error` message shown when the CSV is missing. -/
def missingDataMsg : String :=
  "CSV not found at: data/jobs_latest.csv"

/-- One request: `none` models an absent source file.  When the file is
absent the script stops with the structured condition before any table is
built; otherwise the canonical table is built, filtered, presented and
serialized. -/
def runApp (file : Option Frame) (crit : FilterCriteria) : AppResult :=
  match file with
  | none => .sourceUnavailable missingDataMsg
  | some raw =>
      let canonical := loadJobs raw
      let filteredFrame : Frame :=
        { cols := canonical.cols, rows := applyFilters crit canonical.rows }
      let presented := presentFrame filteredFrame
      .page presented (exportText presented)

/-- The nine optional columns of the spec (the backfill list minus
`location`, which the source also backfills). -/
def nineOptionalCols : List String :=
  ["seniority_norm", "job_type", "remote_policy", "timezone_overlap",
   "tech_stack.languages", "tech_stack.frameworks", "tech_stack.data",
   "tech_stack.cloud", "tech_stack.ml"]

/-- A small raw table used to instantiate the normalizer theorems:
one fresh valid date, one unparsable date, one older valid date. -/
def c4DemoRaw : Frame :=
  { cols := ["title", "posted_at"],
    rows := [[("title", some "A"), ("posted_at", some "2024-01-02")],
             [("title", some "B"), ("posted_at", some "bogus")],
             [("title", some "C"), ("posted_at", some "2024-03-01")]] }

/-- Python `str.title()` on ASCII: uppercase every letter that follows a
non-letter, lowercase every letter that follows a letter. -/
def titleChars : Bool → List Char → List Char
  | _, [] => []
  | prevAlpha, c :: cs =>
      (if prevAlpha then c.toLower else c.toUpper) :: titleChars c.isAlpha cs

/-- Modelled from the spec: the readable fallback rendering the spec
describes for a code absent from the label table, the raw code
title-cased with underscore separators replaced by spaces
(`v.replace("_", " ").title()`). -/
def specTitleCaseFallback (s : String) : String :=
  String.mk (titleChars false (s.data.map (fun c => if c = '_' then ' ' else c)))

/-- A one-row frame whose remote-policy code is absent from
`REMOTE_LABELS`. -/
def c7DemoFrame : Frame :=
  { cols := ["remote_policy", "seniority_norm"],
    rows := [[("remote_policy", some "full_remote"), ("seniority_norm", some "vp")]] }

/-- The row of the C3 counterexample: `tech_stack.languages` is `"x"`,
the other four tech fields are empty. -/
def c3Row : Row :=
  [("tech_stack.languages", some "x"), ("tech_stack.frameworks", some ""),
   ("tech_stack.data", some ""), ("tech_stack.cloud", some ""),
   ("tech_stack.ml", some "")]

/-! ## Theorems -/

/-- A guarded pipeline step is a single `filter` whose predicate lets every
row through when the criterion was not supplied. -/
theorem gatedFilter_eq (skip : Bool) (p : Row → Bool) (l : List Row) :
    gatedFilter skip p l = l.filter (fun r => skip || p r) := by
  cases skip with
  | true => simp [gatedFilter]
  | false => simp [gatedFilter]

/-- Two successive filters are one filter by the conjunction. -/
theorem filter_pair {α : Type} (l : List α) (p q : α → Bool) :
    (l.filter p).filter q = l.filter (fun a => p a && q a) := by
  induction l with
  | nil => rfl
  | cons a l ih =>
      cases hp : p a <;> cases hq : q a <;>
        simp [List.filter_cons, hp, hq, ih]

/-- The whole pipeline is one filter by the conjunction of all criteria. -/
theorem applyFilters_eq (c : FilterCriteria) (rows : List Row) :
    applyFilters c rows = rows.filter (rowPasses c) := by
  simp only [applyFilters, gatedFilter_eq, filter_pair]
  rfl

/-- `isin` passes exactly the rows whose raw value is a selected member. -/
theorem isinPred_iff (col : String) (sel : List String) (r : Row) :
    isinPred col sel r = true ↔
      ∃ v, cellOf r col = some v ∧ v ∈ sel := by
  unfold isinPred
  cases h : cellOf r col with
  | none => simp
  | some v => simp

/-- C1: filtering is the logical AND of all supplied criteria: the filtered
result is exactly the subsequence of rows satisfying every non-empty
criterion, in the existing table order; in particular, under two
non-empty categorical selections (seniority and remote policy) a row is
kept iff its raw value for each field is a member of the selection set
of that field. -/
theorem c1_filter_is_and_of_criteria (c : FilterCriteria) (rows : List Row) :
    applyFilters c rows = rows.filter (rowPasses c) ∧
    (applyFilters c rows).Sublist rows ∧
    (∀ sens rems : List String, sens ≠ [] → rems ≠ [] →
      ∀ r ∈ rows,
        (r ∈ applyFilters
            { emptyCriteria with seniority := sens, remote := rems } rows ↔
          (∃ v, cellOf r "seniority_norm" = some v ∧ v ∈ sens) ∧
          (∃ v, cellOf r "remote_policy" = some v ∧ v ∈ rems))) := by
  refine ⟨applyFilters_eq c rows, ?_, ?_⟩
  · rw [applyFilters_eq]
    exact List.filter_sublist rows
  · intro sens rems hs hr r hmem
    rw [applyFilters_eq, List.mem_filter]
    have hse : sens.isEmpty = false := by
      cases sens with
      | nil => exact absurd rfl hs
      | cons a l => rfl
    have hre : rems.isEmpty = false := by
      cases rems with
      | nil => exact absurd rfl hr
      | cons a l => rfl
    simp [rowPasses, emptyCriteria, hse, hre, isinPred_iff, hmem]

/-- Concrete instantiation of `c1_filter_is_and_of_criteria` on the table
of the strict-AND example of the spec. -/
theorem c1_filter_is_and_of_criteria_witness :
    ([[("seniority_norm", some "senior"), ("remote_policy", some "remote_only")],
      [("seniority_norm", some "senior"), ("remote_policy", some "hybrid")],
      [("seniority_norm", some "junior"), ("remote_policy", some "remote_only")]] :
        List Row).head? =
      some [("seniority_norm", some "senior"), ("remote_policy", some "remote_only")] ∧
    ([("seniority_norm", some "senior"), ("remote_policy", some "remote_only")] : Row) ∈
      applyFilters { emptyCriteria with seniority := ["senior"], remote := ["remote_only"] }
        [[("seniority_norm", some "senior"), ("remote_policy", some "remote_only")],
         [("seniority_norm", some "senior"), ("remote_policy", some "hybrid")],
         [("seniority_norm", some "junior"), ("remote_policy", some "remote_only")]] := by
  refine ⟨rfl, ?_⟩
  exact ((c1_filter_is_and_of_criteria emptyCriteria _).2.2
      ["senior"] ["remote_only"] (by decide) (by decide) _ (by decide)).mpr
    ⟨⟨"senior", rfl, by decide⟩, ⟨"remote_only", rfl, by decide⟩⟩

/-- C2: an empty `FilterCriteria` (empty text queries and empty selection
sets) returns the table unchanged: every row, in order. -/
theorem c2_empty_criteria_returns_all (rows : List Row) :
    applyFilters emptyCriteria rows = rows := by
  simp [applyFilters, emptyCriteria, gatedFilter]

/-- On a pattern without the wildcard, a regex prefix match is a literal
prefix match. -/
theorem reMatchHere_eq_prefixEq (pat : List Char) (h : '.' ∉ pat) :
    ∀ s, reMatchHere pat s = prefixEq pat s := by
  induction pat with
  | nil => intro s; rfl
  | cons p ps ih =>
      intro s
      cases s with
      | nil => rfl
      | cons c cs =>
          have hp : ¬(p = '.') := fun hh => h (by simp [hh])
          have hps : '.' ∉ ps := fun hm => h (List.mem_cons_of_mem _ hm)
          simp [reMatchHere, prefixEq, if_neg hp, ih hps]

/-- On a pattern without the wildcard, `re.search` is literal substring
containment. -/
theorem reSearchL_eq_containsSub (pat : List Char) (h : '.' ∉ pat) :
    ∀ s, reSearchL pat s = containsSub pat s := by
  intro s
  induction s with
  | nil => simp [reSearchL, containsSub, reMatchHere_eq_prefixEq pat h]
  | cons c cs ih =>
      simp [reSearchL, containsSub, reMatchHere_eq_prefixEq pat h, ih]

/-- A string is `""` exactly when its character list is empty. -/
theorem string_eq_empty_iff (s : String) : s = "" ↔ s.data = [] := by
  constructor
  · intro h; simp [h]
  · intro h
    cases s with
    | mk d => cases h; rfl

/-- C3 counterexample: the non-empty tech query `"."` passes a row none of
whose five tech fields contains `"."` as a literal substring, because the
query is interpreted as a regular expression; so "passes iff the query
matches as a substring of at least one tech field" is false as stated. -/
theorem c3_substring_counterexample :
    ("." : String) ≠ "" ∧
    rowPasses { emptyCriteria with techQ := "." } c3Row = true ∧
    techCols.all (fun col =>
      !(containsSub (lowerL ".") (lowerL ((cellOf c3Row col).getD "")))) = true := by
  decide

/-- C3 (amended): for every tech-stack query free of regex
metacharacters, a row passes the tech-stack criterion iff the query is
empty or matches case-insensitively as a literal substring of at least
one of the five `tech_stack.*` fields (OR across the five); a non-empty
metacharacter-free query never passes a row whose five tech fields are
all empty. -/
theorem c3_tech_or_amended (t : String) (r : Row)
    (hmeta : ∀ ch ∈ lowerL t, ch ∉ regexMeta) :
    (rowPasses { emptyCriteria with techQ := t } r = true ↔
      t = "" ∨ ∃ col ∈ techCols,
        containsSub (lowerL t) (lowerL ((cellOf r col).getD "")) = true) ∧
    (t ≠ "" → (∀ col ∈ techCols, (cellOf r col).getD "" = "") →
      rowPasses { emptyCriteria with techQ := t } r = false) := by
  have hdot : '.' ∉ lowerL t := fun hm => hmeta '.' hm (by decide)
  constructor
  · by_cases ht : t = ""
    · subst ht
      simp [rowPasses, emptyCriteria]
    · have hbe : (t == "") = false := by
        simp [ht]
      simp [rowPasses, emptyCriteria, hbe, techPred, List.any_eq_true,
        reSearchL_eq_containsSub (lowerL t) hdot, ht]
  · intro ht hall
    have hbe : (t == "") = false := by simp [ht]
    have hne : lowerL t ≠ [] := by
      intro hn
      apply ht
      rw [string_eq_empty_iff]
      rw [lowerL] at hn
      exact List.map_eq_nil_iff.mp hn
    have htech : techPred t r = false := by
      rw [techPred, List.any_eq_false]
      intro col hcol
      rw [hall col hcol]
      cases hlt : lowerL t with
      | nil => exact absurd hlt hne
      | cons a l => simp [reSearchL, reMatchHere, lowerL]
    simp [rowPasses, emptyCriteria, hbe, htech]

/-- Concrete instantiation of `c3_tech_or_amended`: the example
query `"rust"` matches `tech_stack.languages = "Rust, Go"` and fails on a
row with all tech fields empty. -/
theorem c3_tech_or_amended_witness :
    rowPasses { emptyCriteria with techQ := "rust" }
      [("tech_stack.languages", some "Rust, Go")] = true ∧
    rowPasses { emptyCriteria with techQ := "rust" }
      [("tech_stack.languages", some "")] = false := by
  constructor
  · exact (c3_tech_or_amended "rust" _ (by decide)).1.mpr
      (Or.inr ⟨"tech_stack.languages", by decide, by decide⟩)
  · exact (c3_tech_or_amended "rust" _ (by decide)).2 (by decide) (by decide)

/-- C10: each of the three text filters (title, location, tech stack)
matches its lowercased query as a regular expression against the
lowercased field value; and for the metacharacter query `"."` each filter
keeps a row even though `"."` is not a literal substring of the field, so
the behavior differs from literal case-insensitive containment. -/
theorem c10_text_filters_are_regex :
    (∀ qs : String, ∀ r : Row, qs ≠ "" →
      (rowPasses { emptyCriteria with q := qs } r = true ↔
        reSearchL (lowerL qs) (lowerL ((cellOf r "title").getD "")) = true)) ∧
    (∀ lq : String, ∀ r : Row, lq ≠ "" →
      (rowPasses { emptyCriteria with locationQ := lq } r = true ↔
        reSearchL (lowerL lq) (lowerL ((cellOf r "location").getD "")) = true)) ∧
    (∀ tq : String, ∀ r : Row, tq ≠ "" →
      (rowPasses { emptyCriteria with techQ := tq } r = true ↔
        ∃ col ∈ techCols,
          reSearchL (lowerL tq) (lowerL ((cellOf r col).getD "")) = true)) ∧
    (applyFilters { emptyCriteria with q := "." } [[("title", some "Dev")]] =
        [[("title", some "Dev")]] ∧
      containsSub (lowerL ".") (lowerL "Dev") = false) ∧
    (applyFilters { emptyCriteria with locationQ := "." } [[("location", some "EU")]] =
        [[("location", some "EU")]] ∧
      containsSub (lowerL ".") (lowerL "EU") = false) := by
  refine ⟨?_, ?_, ?_, by decide, by decide⟩
  · intro qs r h
    have hbe : (qs == "") = false := by simp [h]
    simp [rowPasses, emptyCriteria, hbe, titlePred]
  · intro lq r h
    have hbe : (lq == "") = false := by simp [h]
    simp [rowPasses, emptyCriteria, hbe, locationPred]
  · intro tq r h
    have hbe : (tq == "") = false := by simp [h]
    simp [rowPasses, emptyCriteria, hbe, techPred, List.any_eq_true]

/-- Concrete instantiation of `c10_text_filters_are_regex`: the title
filter with query `"dev"` on title `"Dev"`. -/
theorem c10_text_filters_are_regex_witness :
    rowPasses { emptyCriteria with q := "dev" } [("title", some "Dev")] = true := by
  exact (c10_text_filters_are_regex.1 "dev" [("title", some "Dev")]
    (by decide)).mpr (by decide)

/-! ### Lookup lemmas for `setCol` and `backfillRow` -/

/-- Dropping the bindings of another key does not change a lookup. -/
theorem lookup_filter_ne (r : Row) (c c' : String) (h : c' ≠ c) :
    (r.filter (fun p => p.1 != c)).lookup c' = r.lookup c' := by
  have hbc : (c' == c) = false := by simp [h]
  induction r with
  | nil => rfl
  | cons p r ih =>
      obtain ⟨k, v⟩ := p
      by_cases hk : k = c
      · subst hk
        simp [List.filter_cons, List.lookup, hbc, ih]
      · have hkb : (k != c) = true := by simp [hk]
        cases hck : c' == k with
        | true => simp [List.filter_cons, hkb, List.lookup, hck]
        | false => simp [List.filter_cons, hkb, List.lookup, hck, ih]

/-- After `df[c] = v`, looking up `c` finds `v`. -/
theorem lookup_setCol_self (r : Row) (c : String) (v : Cell) :
    (setCol r c v).lookup c = some v := by
  unfold setCol
  induction r with
  | nil => simp [List.lookup]
  | cons p r ih =>
      obtain ⟨k, w⟩ := p
      by_cases hk : k = c
      · subst hk
        simpa [List.filter_cons] using ih
      · have hkb : (k != c) = true := by simp [hk]
        have hck : (c == k) = false := by
          simp [Ne.symm hk]
        simp only [List.filter_cons, hkb, if_pos, List.cons_append,
          List.lookup, hck]
        exact ih

/-- After `df[c] = v`, looking up a different key is unchanged. -/
theorem lookup_setCol_ne (r : Row) (c c' : String) (v : Cell) (h : c' ≠ c) :
    (setCol r c v).lookup c' = r.lookup c' := by
  unfold setCol
  have hbc : (c' == c) = false := by simp [h]
  induction r with
  | nil => simp [List.lookup, hbc]
  | cons p r ih =>
      obtain ⟨k, w⟩ := p
      by_cases hk : k = c
      · subst hk
        simp only [List.filter_cons, bne_self_eq_false, Bool.false_eq_true,
          if_false, List.lookup, hbc]
        simpa [List.lookup, hbc] using ih
      · have hkb : (k != c) = true := by simp [hk]
        cases hck : c' == k with
        | true =>
            simp [List.filter_cons, hkb, List.lookup, hck]
        | false =>
            simp only [List.filter_cons, hkb, if_pos, List.cons_append,
              List.lookup, hck]
            simpa [List.lookup, hck] using ih

/-- `cellOf` after setting the same column. -/
theorem cellOf_setCol_self (r : Row) (c : String) (v : Cell) :
    cellOf (setCol r c v) c = v := by
  unfold cellOf
  rw [lookup_setCol_self]
  rfl

/-- `cellOf` after setting a different column. -/
theorem cellOf_setCol_ne (r : Row) (c c' : String) (v : Cell) (h : c' ≠ c) :
    cellOf (setCol r c v) c' = cellOf r c' := by
  unfold cellOf
  rw [lookup_setCol_ne r c c' v h]

/-- Backfilling columns other than `c` does not change `cellOf c`. -/
theorem cellOf_backfillRow_ne (missing : List String) (r : Row) (c : String)
    (h : c ∉ missing) :
    cellOf (backfillRow missing r) c = cellOf r c := by
  induction missing generalizing r with
  | nil => rfl
  | cons m ms ih =>
      have hm : c ≠ m := fun hh => h (by simp [hh])
      have hms : c ∉ ms := fun hh => h (List.mem_cons_of_mem _ hh)
      show cellOf (backfillRow ms (setCol r m (some ""))) c = cellOf r c
      rw [ih (setCol r m (some "")) hms, cellOf_setCol_ne r m c (some "") hm]

/-- The sort key only reads `posted_at`, so setting another column keeps it. -/
theorem rowSortKey_setCol_ne (r : Row) (c : String) (v : Cell)
    (h : c ≠ "posted_at") :
    rowSortKey (setCol r c v) = rowSortKey r := by
  unfold rowSortKey
  rw [cellOf_setCol_ne r c "posted_at" v (fun hh => h hh.symm)]

/-- Deriving the date columns does not change the sort key. -/
theorem rowSortKey_addDateCols (r : Row) :
    rowSortKey (addDateCols r) = rowSortKey r := by
  unfold addDateCols
  rw [rowSortKey_setCol_ne _ _ _ (by decide), rowSortKey_setCol_ne _ _ _ (by decide)]

/-- Backfilling (a sublist of `backfillCols`) does not change the sort key. -/
theorem rowSortKey_backfillRow (missing : List String) (r : Row)
    (h : ∀ c ∈ missing, c ∈ backfillCols) :
    rowSortKey (backfillRow missing r) = rowSortKey r := by
  unfold rowSortKey
  rw [cellOf_backfillRow_ne missing r "posted_at"
    (fun hm => absurd (h _ hm) (by decide))]

/-- Backfilling does not change `posted_date`. -/
theorem posted_date_backfillRow (missing : List String) (r : Row)
    (h : ∀ c ∈ missing, c ∈ backfillCols) :
    cellOf (backfillRow missing r) "posted_date" = cellOf r "posted_date" := by
  exact cellOf_backfillRow_ne missing r "posted_date"
    (fun hm => absurd (h _ hm) (by decide))

/-- The derived `posted_date` cell is `strftime` of the sort key. -/
theorem posted_date_addDateCols (r : Row) :
    cellOf (addDateCols r) "posted_date" = (rowSortKey r).map renderDate := by
  unfold addDateCols
  rw [cellOf_setCol_self]

/-- A rendered date is never the empty string. -/
theorem renderDate_ne_empty (k : Nat) : renderDate k ≠ "" := by
  intro h
  rw [string_eq_empty_iff] at h
  have hd : (renderDate k).data =
      [digitChar (k / 10000000), digitChar (k / 1000000),
       digitChar (k / 100000), digitChar (k / 10000), '-',
       digitChar (k / 1000), digitChar (k / 100), '-',
       digitChar (k / 10), digitChar k] := rfl
  rw [hd] at h
  exact absurd h (by simp)

/-- `postedGe` only depends on the sort keys. -/
theorem postedGe_congr (a b a' b' : Row) (ha : rowSortKey a = rowSortKey a')
    (hb : rowSortKey b = rowSortKey b') : postedGe a b ↔ postedGe a' b' := by
  unfold postedGe
  rw [ha, hb]

/-- A list whose members all satisfy `P` is pairwise related by any
relation that holds between `P`-elements. -/
theorem pairwise_of_all {α : Type} (R : α → α → Prop) (P : α → Prop)
    (l : List α) (hl : ∀ a ∈ l, P a) (h : ∀ a b, P a → P b → R a b) :
    l.Pairwise R := by
  induction l with
  | nil => exact List.Pairwise.nil
  | cons a t ih =>
      refine List.Pairwise.cons (fun b hb => ?_)
        (ih (fun x hx => hl x (List.mem_cons_of_mem _ hx)))
      exact h a b (hl a (List.mem_cons_self a t)) (hl b (List.mem_cons_of_mem _ hb))

/-- A successful lookup comes from an entry with that key. -/
theorem lookup_isSome_mem (r : Row) (c : String)
    (h : (r.lookup c).isSome = true) : ∃ v, (c, v) ∈ r := by
  induction r with
  | nil => exact absurd h (by simp [List.lookup])
  | cons p r ih =>
      obtain ⟨k, v⟩ := p
      cases hck : c == k with
      | true =>
          have hc : c = k := by simpa using hck
          exact ⟨v, by rw [hc]; exact List.mem_cons_self _ _⟩
      | false =>
          simp only [List.lookup, hck] at h
          exact (ih h).imp (fun w hw => List.mem_cons_of_mem _ hw)

/-! ### The recency sort -/

/-- The output of `sort_values` is ordered: descending on present keys,
keyless rows after all keyed rows. -/
theorem sorted_sortByKeyDesc (rows0 : List Row) :
    List.Sorted postedGe (sortByKeyDesc rows0) := by
  unfold sortByKeyDesc
  rw [List.Sorted, List.pairwise_append]
  refine ⟨?_, ?_, ?_⟩
  · have hs := List.sorted_insertionSort keyDescRel
      (rows0.filter (fun r => (rowSortKey r).isSome))
    refine hs.imp_of_mem ?_
    intro a b ha hb hr
    have ha2 : (rowSortKey a).isSome = true :=
      (List.mem_filter.mp ((List.mem_insertionSort keyDescRel).mp ha)).2
    have hb2 : (rowSortKey b).isSome = true :=
      (List.mem_filter.mp ((List.mem_insertionSort keyDescRel).mp hb)).2
    obtain ⟨x, hx⟩ := Option.isSome_iff_exists.mp ha2
    obtain ⟨y, hy⟩ := Option.isSome_iff_exists.mp hb2
    unfold keyDescRel at hr
    rw [hx, hy] at hr
    simp only [Option.getD_some] at hr
    simp [postedGe, hx, hy, hr]
  · refine pairwise_of_all postedGe (fun r => (rowSortKey r).isNone = true) _
      (fun a ha => (List.mem_filter.mp ha).2) (fun a b ha hb => ?_)
    have ha2 : rowSortKey a = none := Option.isNone_iff_eq_none.mp ha
    have hb2 : rowSortKey b = none := Option.isNone_iff_eq_none.mp hb
    simp [postedGe, ha2, hb2]
  · intro a ha b hb
    have ha2 : (rowSortKey a).isSome = true :=
      (List.mem_filter.mp ((List.mem_insertionSort keyDescRel).mp ha)).2
    have hb2 : (rowSortKey b).isNone = true := (List.mem_filter.mp hb).2
    obtain ⟨x, hx⟩ := Option.isSome_iff_exists.mp ha2
    rw [Option.isNone_iff_eq_none] at hb2
    simp [postedGe, hx, hb2]

/-- The keyless rows come out of the sort exactly as they went in. -/
theorem filter_none_sortByKeyDesc (rows0 : List Row) :
    (sortByKeyDesc rows0).filter (fun r => (rowSortKey r).isNone) =
      rows0.filter (fun r => (rowSortKey r).isNone) := by
  unfold sortByKeyDesc
  rw [List.filter_append]
  have h1 : (List.insertionSort keyDescRel
      (rows0.filter (fun r => (rowSortKey r).isSome))).filter
        (fun r => (rowSortKey r).isNone) = [] := by
    rw [List.filter_eq_nil_iff]
    intro a ha
    have ha2 : (rowSortKey a).isSome = true :=
      (List.mem_filter.mp ((List.mem_insertionSort keyDescRel).mp ha)).2
    simp [Option.isNone_eq_false_iff, Option.isSome_iff_ne_none.mp ha2]
  have h2 : ((rows0.filter (fun r => (rowSortKey r).isNone)).filter
      (fun r => (rowSortKey r).isNone)) =
        rows0.filter (fun r => (rowSortKey r).isNone) := by
    rw [filter_pair]
    have hf : (fun (a : Row) => (rowSortKey a).isNone && (rowSortKey a).isNone) =
        (fun a => (rowSortKey a).isNone) := funext fun a => Bool.and_self _
    rw [hf]
  rw [h1, h2, List.nil_append]

/-- The sort permutes the rows. -/
theorem perm_sortByKeyDesc (rows0 : List Row) :
    (sortByKeyDesc rows0).Perm rows0 := by
  unfold sortByKeyDesc
  have h1 := List.perm_insertionSort keyDescRel
    (rows0.filter (fun r => (rowSortKey r).isSome))
  refine (h1.append (List.Perm.refl _)).trans ?_
  have hcong : rows0.filter (fun r => (rowSortKey r).isNone) =
      rows0.filter (fun r => !((rowSortKey r).isSome)) := by
    congr 1
    funext r
    cases rowSortKey r <;> rfl
  rw [hcong]
  exact List.filter_append_perm _ rows0

/-- A row of the sorted output is a row of the input. -/
theorem mem_sortByKeyDesc {s : Row} {rows0 : List Row}
    (h : s ∈ sortByKeyDesc rows0) : s ∈ rows0 :=
  (perm_sortByKeyDesc rows0).mem_iff.mp h

/-- C4: for every (rectangular) raw table, the canonical table is sorted
by the posted-at sort key descending with every row lacking a key after
every row that has one; a row whose `posted_at` failed to parse has a
blank `posted_date`, and the sort key is absent iff `posted_date` is
blank; the canonical rows are a permutation of the unsorted canonical
rows, and the rows lacking a key keep their original relative order
(their subsequence equals the unsorted one). -/
theorem c4_canonical_sort_invariants (raw : Frame)
    (hkeys : ∀ r ∈ raw.rows, ∀ p ∈ r, p.1 ∈ raw.cols) :
    List.Sorted postedGe (loadJobs raw).rows ∧
    (∀ r ∈ (loadJobs raw).rows,
      ((rowSortKey r).isNone = true ↔ (cellOf r "posted_date").getD "" = "")) ∧
    ((loadJobs raw).rows.filter (fun r => (rowSortKey r).isNone) =
      (loadJobsUnsorted raw).rows.filter (fun r => (rowSortKey r).isNone)) ∧
    ((loadJobs raw).rows).Perm (loadJobsUnsorted raw).rows := by
  by_cases hpa : raw.cols.contains "posted_at" = true
  · have hrowsA : (loadJobs raw).rows =
        (sortByKeyDesc (raw.rows.map addDateCols)).map
          (backfillRow (postedMissing raw)) := by
      unfold loadJobs
      rw [if_pos hpa]
    have hrowsB : (loadJobsUnsorted raw).rows =
        (raw.rows.map addDateCols).map (backfillRow (postedMissing raw)) := by
      unfold loadJobsUnsorted
      rw [if_pos hpa]
    have hmiss : ∀ c ∈ postedMissing raw, c ∈ backfillCols :=
      fun _ hc => List.mem_of_mem_filter hc
    have hk : ∀ r, rowSortKey (backfillRow (postedMissing raw) r) = rowSortKey r :=
      fun r => rowSortKey_backfillRow _ r hmiss
    refine ⟨?_, ?_, ?_, ?_⟩
    · rw [hrowsA, List.Sorted, List.pairwise_map]
      refine (sorted_sortByKeyDesc _).imp ?_
      intro a b hab
      exact (postedGe_congr _ _ a b (hk a) (hk b)).mpr hab
    · rw [hrowsA]
      intro r hr
      obtain ⟨s, hs, rfl⟩ := List.mem_map.mp hr
      obtain ⟨t, ht, rfl⟩ := List.mem_map.mp (mem_sortByKeyDesc hs)
      rw [hk (addDateCols t), rowSortKey_addDateCols t,
        posted_date_backfillRow _ _ hmiss, posted_date_addDateCols t]
      cases hkey : rowSortKey t with
      | none => simp
      | some k => simp [renderDate_ne_empty k]
    · rw [hrowsA, hrowsB, List.filter_map, List.filter_map]
      have hcomp : ((fun r => (rowSortKey r).isNone) ∘ backfillRow (postedMissing raw)) =
          (fun r => (rowSortKey r).isNone) :=
        funext fun r => by simp [Function.comp, hk r]
      rw [hcomp, filter_none_sortByKeyDesc]
    · rw [hrowsA, hrowsB]
      exact (perm_sortByKeyDesc _).map _
  · have hrowsA : (loadJobs raw).rows =
        (raw.rows.map (fun r => setCol r "posted_date" (some ""))).map
          (backfillRow (noPostedMissing raw)) := by
      unfold loadJobs
      rw [if_neg hpa]
    have hrowsB : (loadJobsUnsorted raw).rows =
        (raw.rows.map (fun r => setCol r "posted_date" (some ""))).map
          (backfillRow (noPostedMissing raw)) := by
      unfold loadJobsUnsorted
      rw [if_neg hpa]
    have hmiss : ∀ c ∈ noPostedMissing raw, c ∈ backfillCols :=
      fun _ hc => List.mem_of_mem_filter hc
    have hnomem : "posted_at" ∉ raw.cols := by
      intro hm
      exact hpa (by simp [hm])
    have hallnone : ∀ r ∈ (loadJobs raw).rows, rowSortKey r = none := by
      rw [hrowsA]
      intro r hr
      obtain ⟨s, hs, rfl⟩ := List.mem_map.mp hr
      obtain ⟨t, ht, rfl⟩ := List.mem_map.mp hs
      rw [rowSortKey_backfillRow _ _ hmiss,
        rowSortKey_setCol_ne _ _ _ (by decide)]
      have hlk : t.lookup "posted_at" = none := by
        by_contra hne
        obtain ⟨v, hv⟩ := lookup_isSome_mem t "posted_at"
          (Option.ne_none_iff_isSome.mp hne)
        exact hnomem (hkeys t ht ("posted_at", v) hv)
      unfold rowSortKey cellOf
      rw [hlk]
      rfl
    refine ⟨?_, ?_, ?_, ?_⟩
    · exact pairwise_of_all postedGe (fun r => rowSortKey r = none) _
        hallnone (fun a b ha hb => by simp [postedGe, ha, hb])
    · intro r hr
      have hn := hallnone r hr
      rw [hrowsA] at hr
      obtain ⟨s, hs, rfl⟩ := List.mem_map.mp hr
      obtain ⟨t, ht, rfl⟩ := List.mem_map.mp hs
      rw [posted_date_backfillRow _ _ hmiss, cellOf_setCol_self, hn]
      simp
    · rw [hrowsA, hrowsB]
    · rw [hrowsA, hrowsB]

/-- Concrete instantiation of `c4_canonical_sort_invariants` on
`c4DemoRaw`. -/
theorem c4_canonical_sort_invariants_witness :
    List.Sorted postedGe (loadJobs c4DemoRaw).rows ∧
    (∀ r ∈ (loadJobs c4DemoRaw).rows,
      ((rowSortKey r).isNone = true ↔ (cellOf r "posted_date").getD "" = "")) ∧
    ((loadJobs c4DemoRaw).rows.filter (fun r => (rowSortKey r).isNone) =
      (loadJobsUnsorted c4DemoRaw).rows.filter (fun r => (rowSortKey r).isNone)) ∧
    ((loadJobs c4DemoRaw).rows).Perm (loadJobsUnsorted c4DemoRaw).rows :=
  c4_canonical_sort_invariants c4DemoRaw (by decide)

/-! ### Column-presence lemmas for the backfill -/

/-- Setting a column makes its entry present. -/
theorem hasEntry_setCol_self (r : Row) (c : String) (v : Cell) :
    hasEntry (setCol r c v) c = true := by
  unfold hasEntry
  rw [lookup_setCol_self]
  rfl

/-- Setting a column never removes another entry. -/
theorem hasEntry_setCol_mono (r : Row) (c c' : String) (v : Cell)
    (h : hasEntry r c = true) : hasEntry (setCol r c' v) c = true := by
  by_cases hc : c = c'
  · subst hc
    exact hasEntry_setCol_self r c v
  · unfold hasEntry at h ⊢
    rw [lookup_setCol_ne r c' c v hc]
    exact h

/-- Backfilling never removes an entry. -/
theorem hasEntry_backfillRow_mono (missing : List String) (r : Row)
    (c : String) (h : hasEntry r c = true) :
    hasEntry (backfillRow missing r) c = true := by
  induction missing generalizing r with
  | nil => exact h
  | cons m ms ih =>
      exact ih (setCol r m (some "")) (hasEntry_setCol_mono r c m (some "") h)

/-- Backfilling creates an entry for every backfilled column. -/
theorem hasEntry_backfillRow_of_mem (missing : List String) (r : Row)
    (c : String) (h : c ∈ missing) :
    hasEntry (backfillRow missing r) c = true := by
  induction missing generalizing r with
  | nil => exact absurd h (List.not_mem_nil c)
  | cons m ms ih =>
      by_cases hms : c ∈ ms
      · exact ih (setCol r m (some "")) hms
      · have hcm : c = m := by
          rcases List.mem_cons.mp h with h1 | h1
          · exact h1
          · exact absurd h1 hms
        subst hcm
        exact hasEntry_backfillRow_mono ms _ c (hasEntry_setCol_self r c (some ""))

/-- A backfilled column that occurs once reads back as `""`. -/
theorem cellOf_backfillRow_of_mem (missing : List String) (r : Row)
    (c : String) (h : c ∈ missing) (hnd : missing.Nodup) :
    cellOf (backfillRow missing r) c = some (("" : String)) := by
  induction missing generalizing r with
  | nil => exact absurd h (List.not_mem_nil c)
  | cons m ms ih =>
      by_cases hms : c ∈ ms
      · exact ih (setCol r m (some "")) hms (List.Nodup.of_cons hnd)
      · have hcm : c = m := by
          rcases List.mem_cons.mp h with h1 | h1
          · exact h1
          · exact absurd h1 hms
        subst hcm
        show cellOf (backfillRow ms (setCol r c (some ""))) c = some ""
        rw [cellOf_backfillRow_ne ms _ c hms, cellOf_setCol_self]

/-- Membership in `colsAdd`. -/
theorem mem_colsAdd (cols : List String) (x c : String) :
    c ∈ colsAdd cols x ↔ c ∈ cols ∨ c = x := by
  unfold colsAdd
  by_cases h : cols.contains x = true
  · rw [if_pos h]
    constructor
    · exact Or.inl
    · rintro (hc | rfl)
      · exact hc
      · simpa using h
  · rw [if_neg h]
    simp

/-- Each of the nine optional columns is in the backfill loop list and is
distinct from the derived date columns. -/
theorem nine_in_backfill :
    ∀ c ∈ nineOptionalCols,
      c ∈ backfillCols ∧ c ≠ "posted_at_dt" ∧ c ≠ "posted_date" := by
  decide

/-- A nine-column absent from the raw table is in the `posted_at`-branch
backfill list. -/
theorem mem_postedMissing (raw : Frame) (c : String)
    (hc : c ∈ nineOptionalCols) (hnot : c ∉ raw.cols) :
    c ∈ postedMissing raw := by
  obtain ⟨hb, h1, h2⟩ := nine_in_backfill c hc
  unfold postedMissing
  rw [List.mem_filter]
  refine ⟨hb, ?_⟩
  have hmem : c ∉ postedCols raw := by
    unfold postedCols
    rw [mem_colsAdd, mem_colsAdd]
    rintro ((h | h) | h)
    · exact hnot h
    · exact h1 h
    · exact h2 h
  simp [hmem]

/-- A nine-column absent from the raw table is in the backfill list of
the other branch. -/
theorem mem_noPostedMissing (raw : Frame) (c : String)
    (hc : c ∈ nineOptionalCols) (hnot : c ∉ raw.cols) :
    c ∈ noPostedMissing raw := by
  obtain ⟨hb, h1, h2⟩ := nine_in_backfill c hc
  unfold noPostedMissing
  rw [List.mem_filter]
  refine ⟨hb, ?_⟩
  have hmem : c ∉ noPostedCols raw := by
    unfold noPostedCols
    rw [mem_colsAdd]
    rintro (h | h)
    · exact hnot h
    · exact h2 h
  simp [hmem]

/-- The two backfill lists have no duplicates. -/
theorem postedMissing_nodup (raw : Frame) : (postedMissing raw).Nodup :=
  List.Nodup.filter _ (by decide)

theorem noPostedMissing_nodup (raw : Frame) : (noPostedMissing raw).Nodup :=
  List.Nodup.filter _ (by decide)

/-- C5: each of the nine optional columns of the spec is present in the
canonical table: it is among the canonical columns, every canonical row
has an entry for it, and when the raw table lacked the column every
canonical row holds the empty string there. -/
theorem c5_nine_optional_columns (raw : Frame)
    (hfull : ∀ r ∈ raw.rows, ∀ c ∈ raw.cols, (r.lookup c).isSome = true) :
    ∀ c ∈ nineOptionalCols,
      c ∈ (loadJobs raw).cols ∧
      (∀ r ∈ (loadJobs raw).rows, hasEntry r c = true) ∧
      (c ∉ raw.cols → ∀ r ∈ (loadJobs raw).rows, cellOf r c = some "") := by
  intro c hc
  by_cases hpa : raw.cols.contains "posted_at" = true
  · have hcols : (loadJobs raw).cols = postedCols raw ++ postedMissing raw := by
      unfold loadJobs
      rw [if_pos hpa]
    have hrows : (loadJobs raw).rows =
        (sortByKeyDesc (raw.rows.map addDateCols)).map
          (backfillRow (postedMissing raw)) := by
      unfold loadJobs
      rw [if_pos hpa]
    refine ⟨?_, ?_, ?_⟩
    · rw [hcols, List.mem_append]
      by_cases hr : c ∈ raw.cols
      · exact Or.inl (by
          unfold postedCols
          rw [mem_colsAdd, mem_colsAdd]
          exact Or.inl (Or.inl hr))
      · exact Or.inr (mem_postedMissing raw c hc hr)
    · rw [hrows]
      intro r hr
      obtain ⟨s, hs, rfl⟩ := List.mem_map.mp hr
      by_cases hrc : c ∈ raw.cols
      · obtain ⟨t, ht, rfl⟩ := List.mem_map.mp (mem_sortByKeyDesc hs)
        have h0 : hasEntry t c = true := hfull t ht c hrc
        have h1 : hasEntry (addDateCols t) c = true := by
          unfold addDateCols
          exact hasEntry_setCol_mono _ _ _ _ (hasEntry_setCol_mono _ _ _ _ h0)
        exact hasEntry_backfillRow_mono _ _ c h1
      · exact hasEntry_backfillRow_of_mem _ _ c (mem_postedMissing raw c hc hrc)
    · intro hnot
      rw [hrows]
      intro r hr
      obtain ⟨s, hs, rfl⟩ := List.mem_map.mp hr
      exact cellOf_backfillRow_of_mem _ s c (mem_postedMissing raw c hc hnot)
        (postedMissing_nodup raw)
  · have hcols : (loadJobs raw).cols = noPostedCols raw ++ noPostedMissing raw := by
      unfold loadJobs
      rw [if_neg hpa]
    have hrows : (loadJobs raw).rows =
        (raw.rows.map (fun r => setCol r "posted_date" (some ""))).map
          (backfillRow (noPostedMissing raw)) := by
      unfold loadJobs
      rw [if_neg hpa]
    refine ⟨?_, ?_, ?_⟩
    · rw [hcols, List.mem_append]
      by_cases hr : c ∈ raw.cols
      · exact Or.inl (by
          unfold noPostedCols
          rw [mem_colsAdd]
          exact Or.inl hr)
      · exact Or.inr (mem_noPostedMissing raw c hc hr)
    · rw [hrows]
      intro r hr
      obtain ⟨s, hs, rfl⟩ := List.mem_map.mp hr
      by_cases hrc : c ∈ raw.cols
      · obtain ⟨t, ht, rfl⟩ := List.mem_map.mp hs
        have h0 : hasEntry t c = true := hfull t ht c hrc
        exact hasEntry_backfillRow_mono _ _ c (hasEntry_setCol_mono _ _ _ _ h0)
      · exact hasEntry_backfillRow_of_mem _ _ c (mem_noPostedMissing raw c hc hrc)
    · intro hnot
      rw [hrows]
      intro r hr
      obtain ⟨s, hs, rfl⟩ := List.mem_map.mp hr
      exact cellOf_backfillRow_of_mem _ s c (mem_noPostedMissing raw c hc hnot)
        (noPostedMissing_nodup raw)

/-- Concrete instantiation of `c5_nine_optional_columns` on `c4DemoRaw`,
whose raw columns contain none of the nine. -/
theorem c5_nine_optional_columns_witness :
    ("job_type" ∈ nineOptionalCols) ∧
    ("job_type" ∈ (loadJobs c4DemoRaw).cols ∧
      (∀ r ∈ (loadJobs c4DemoRaw).rows, hasEntry r "job_type" = true) ∧
      ("job_type" ∉ c4DemoRaw.cols →
        ∀ r ∈ (loadJobs c4DemoRaw).rows, cellOf r "job_type" = some "")) :=
  ⟨by decide,
   c5_nine_optional_columns c4DemoRaw (by decide) "job_type" (by decide)⟩

/-! ### Vocabulary lemmas -/

/-- Membership in `pdUniqueAux`: in the remainder and not yet seen. -/
theorem mem_pdUniqueAux (l : List String) :
    ∀ seen x, x ∈ pdUniqueAux seen l ↔ x ∈ l ∧ x ∉ seen := by
  induction l with
  | nil => intro seen x; simp [pdUniqueAux]
  | cons a t ih =>
      intro seen x
      by_cases ha : seen.contains a = true
      · rw [pdUniqueAux, if_pos ha, ih]
        constructor
        · rintro ⟨hx, hn⟩
          exact ⟨List.mem_cons_of_mem a hx, hn⟩
        · rintro ⟨hx, hn⟩
          rcases List.mem_cons.mp hx with rfl | hx
          · exact absurd (by simpa using ha) hn
          · exact ⟨hx, hn⟩
      · rw [pdUniqueAux, if_neg ha]
        constructor
        · intro hx
          rcases List.mem_cons.mp hx with rfl | hx
          · exact ⟨List.mem_cons_self x t, fun hs => ha (by simp [hs])⟩
          · obtain ⟨h1, h2⟩ := (ih (a :: seen) x).mp hx
            exact ⟨List.mem_cons_of_mem a h1,
              fun hs => h2 (List.mem_cons_of_mem a hs)⟩
        · rintro ⟨hx, hn⟩
          rcases List.mem_cons.mp hx with rfl | hx
          · exact List.mem_cons_self x _
          · by_cases hxa : x = a
            · subst hxa
              exact List.mem_cons_self x _
            · refine List.mem_cons_of_mem a ((ih (a :: seen) x).mpr ⟨hx, ?_⟩)
              intro hs
              rcases List.mem_cons.mp hs with h1 | h1
              · exact hxa h1
              · exact hn h1

/-- `pdUniqueAux` never repeats a value. -/
theorem pdUniqueAux_nodup (l : List String) :
    ∀ seen, (pdUniqueAux seen l).Nodup := by
  induction l with
  | nil => intro seen; exact List.nodup_nil
  | cons a t ih =>
      intro seen
      by_cases ha : seen.contains a = true
      · rw [pdUniqueAux, if_pos ha]
        exact ih seen
      · rw [pdUniqueAux, if_neg ha, List.nodup_cons]
        refine ⟨fun hmem => ?_, ih (a :: seen)⟩
        exact ((mem_pdUniqueAux t (a :: seen) a).mp hmem).2 (List.mem_cons_self a seen)

/-- Membership in `pdUnique`: exactly the values of the list. -/
theorem mem_pdUnique (l : List String) (x : String) :
    x ∈ pdUnique l ↔ x ∈ l := by
  unfold pdUnique
  rw [mem_pdUniqueAux]
  simp

/-- C6 counterexample: the value `" "` is non-empty and occurs in the
column, yet the vocabulary omits it, because the source keeps only values
whose `strip()` is truthy; so "the distinct non-empty values of the
field" is false as stated. -/
theorem c6_nonempty_counterexample :
    (" " : String) ≠ "" ∧
    vocabulary [some " ", some "senior"] true = ["senior"] ∧
    (" " : String) ∉ vocabulary [some " ", some "senior"] true := by
  refine ⟨by decide, by decide, by decide⟩

/-- C6 (amended): vocabulary extraction returns the distinct non-blank
values of the field (values with at least one non-whitespace character),
sorted lexicographically ascending with case preserved; for the seniority
field only (`exclUnspecified = true`) values whose lowercasing is the
sentinel `"unspecified"` are also excluded; with the flag off the
sentinel is not excluded. -/
theorem c6_vocabulary_amended (cells : List Cell) (exclUnspecified : Bool) :
    List.Sorted (fun a b : String => a ≤ b) (vocabulary cells exclUnspecified) ∧
    (vocabulary cells exclUnspecified).Nodup ∧
    (∀ s : String, s ∈ vocabulary cells exclUnspecified ↔
      some s ∈ cells ∧ isBlank s = false ∧
        (exclUnspecified = true → String.mk (lowerL s) ≠ "unspecified")) := by
  unfold vocabulary
  refine ⟨List.sorted_insertionSort _ _, ?_, ?_⟩
  · rw [List.Perm.nodup_iff (List.perm_insertionSort _ _)]
    exact List.Nodup.filter _ (pdUniqueAux_nodup _ [])
  · intro s
    rw [List.mem_insertionSort, List.mem_filter, mem_pdUnique,
      List.mem_filterMap]
    constructor
    · rintro ⟨⟨a, ha, rfl⟩, hcond⟩
      simp only [Bool.and_eq_true] at hcond
      obtain ⟨h1, h2⟩ := hcond
      refine ⟨ha, by simpa using h1, fun hex => ?_⟩
      rw [hex] at h2
      simpa using h2
    · rintro ⟨ha, h1, h2⟩
      refine ⟨⟨some s, ha, rfl⟩, ?_⟩
      simp only [Bool.and_eq_true]
      refine ⟨by simpa using h1, ?_⟩
      cases hex : exclUnspecified with
      | false => simp [hex]
      | true =>
          have := h2 hex
          simpa using this

/-- Concrete instantiation of `c6_vocabulary_amended`: with the sentinel
flag off (a non-seniority field), `"unspecified"` is kept. -/
theorem c6_vocabulary_amended_witness :
    ("unspecified" : String) ∈ vocabulary [some "unspecified", some "b"] false :=
  (c6_vocabulary_amended [some "unspecified", some "b"] false).2.2
      "unspecified" |>.mpr
    ⟨by decide, by decide, fun h => by cases h⟩

/-! ### Presenter lemmas -/

/-- Looking up a projected column reads the projected cell. -/
theorem lookup_proj (cols : List String) (r : Row) (c0 : String)
    (h : c0 ∈ cols) :
    (cols.map (fun c => (c, cellOf r c))).lookup c0 = some (cellOf r c0) := by
  induction cols with
  | nil => exact absurd h (List.not_mem_nil c0)
  | cons k t ih =>
      cases hck : c0 == k with
      | true =>
          have : c0 = k := by simpa using hck
          subst this
          simp [List.lookup]
      | false =>
          have hne : c0 ≠ k := by simpa using hck
          have ht : c0 ∈ t := by
            rcases List.mem_cons.mp h with h1 | h1
            · exact absurd h1 hne
            · exact h1
          simp only [List.map, List.lookup, hck]
          exact ih ht

/-- `cellOf` of a projected column. -/
theorem cellOf_proj (cols : List String) (r : Row) (c0 : String)
    (h : c0 ∈ cols) :
    cellOf (cols.map (fun c => (c, cellOf r c))) c0 = cellOf r c0 := by
  show ((cols.map (fun c => (c, cellOf r c))).lookup c0).join = cellOf r c0
  rw [lookup_proj cols r c0 h]
  cases cellOf r c0 <;> rfl

/-- The two pretty columns survive the display projection. -/
theorem pretty_mem_existing (f : Frame) :
    "remote_policy_pretty" ∈ displayCols.filter (fun c =>
      (colsAdd (colsAdd f.cols "remote_policy_pretty") "seniority_pretty").contains c) ∧
    "seniority_pretty" ∈ displayCols.filter (fun c =>
      (colsAdd (colsAdd f.cols "remote_policy_pretty") "seniority_pretty").contains c) := by
  constructor
  · rw [List.mem_filter]
    refine ⟨by decide, ?_⟩
    have : "remote_policy_pretty" ∈
        colsAdd (colsAdd f.cols "remote_policy_pretty") "seniority_pretty" :=
      (mem_colsAdd _ _ _).mpr (Or.inl ((mem_colsAdd _ _ _).mpr (Or.inr rfl)))
    simp [this]
  · rw [List.mem_filter]
    refine ⟨by decide, ?_⟩
    have : "seniority_pretty" ∈
        colsAdd (colsAdd f.cols "remote_policy_pretty") "seniority_pretty" :=
      (mem_colsAdd _ _ _).mpr (Or.inr rfl)
    simp [this]

/-- The pretty cells of the `i`-th presented row are `prettyCell` of the
raw codes of the `i`-th filtered row. -/
theorem presented_pretty_cells (f : Frame) (i : Nat) (hi : i < f.rows.length)
    (hp : i < (presentFrame f).rows.length) :
    cellOf ((presentFrame f).rows[i]) "remote_policy_pretty" =
      prettyCell REMOTE_LABELS (cellOf (f.rows[i]) "remote_policy") ∧
    cellOf ((presentFrame f).rows[i]) "seniority_pretty" =
      prettyCell SENIORITY_LABELS (cellOf (f.rows[i]) "seniority_norm") := by
  obtain ⟨hmr, hms⟩ := pretty_mem_existing f
  have hrow : (presentFrame f).rows[i] =
      (displayCols.filter (fun c =>
        (colsAdd (colsAdd f.cols "remote_policy_pretty") "seniority_pretty").contains c)).map
        (fun c => (c, cellOf
          (setCol (setCol (f.rows[i]) "remote_policy_pretty"
              (prettyCell REMOTE_LABELS (cellOf (f.rows[i]) "remote_policy")))
            "seniority_pretty"
            (prettyCell SENIORITY_LABELS (cellOf (f.rows[i]) "seniority_norm"))) c)) := by
    simp [presentFrame]
  rw [hrow]
  constructor
  · rw [cellOf_proj _ _ _ hmr,
      cellOf_setCol_ne _ _ _ _ (by decide), cellOf_setCol_self]
  · rw [cellOf_proj _ _ _ hms, cellOf_setCol_self]

/-- C7 counterexample: the presented table renders the unmapped
remote-policy code `"full_remote"` as the raw code itself, not as the
title-cased rendering `"Full Remote"` the claim describes. -/
theorem c7_fallback_counterexample :
    (presentFrame c7DemoFrame).rows =
      [[("seniority_pretty", some "VP"),
        ("remote_policy_pretty", some "full_remote")]] ∧
    REMOTE_LABELS.lookup "full_remote" = none ∧
    specTitleCaseFallback "full_remote" = "Full Remote" ∧
    (some "full_remote" : Cell) ≠ some "Full Remote" := by
  refine ⟨by decide, by decide, by decide, by decide⟩

/-- C7 (amended): in the presented table every seniority and
remote-policy raw code found in the lookup table is replaced by its
label, and every code absent from the lookup table is rendered as the raw
code itself, unchanged (never an error; a missing code cell renders as
`""`). -/
theorem c7_labels_amended (f : Frame) (i : Nat) (hi : i < f.rows.length)
    (hp : i < (presentFrame f).rows.length) :
    (∀ code lab, cellOf (f.rows[i]) "remote_policy" = some code →
      REMOTE_LABELS.lookup code = some lab →
      cellOf ((presentFrame f).rows[i]) "remote_policy_pretty" = some lab) ∧
    (∀ code, cellOf (f.rows[i]) "remote_policy" = some code →
      REMOTE_LABELS.lookup code = none →
      cellOf ((presentFrame f).rows[i]) "remote_policy_pretty" = some code) ∧
    (∀ code lab, cellOf (f.rows[i]) "seniority_norm" = some code →
      SENIORITY_LABELS.lookup code = some lab →
      cellOf ((presentFrame f).rows[i]) "seniority_pretty" = some lab) ∧
    (∀ code, cellOf (f.rows[i]) "seniority_norm" = some code →
      SENIORITY_LABELS.lookup code = none →
      cellOf ((presentFrame f).rows[i]) "seniority_pretty" = some code) ∧
    (cellOf (f.rows[i]) "remote_policy" = none →
      cellOf ((presentFrame f).rows[i]) "remote_policy_pretty" = some "") := by
  obtain ⟨hr, hs⟩ := presented_pretty_cells f i hi hp
  refine ⟨?_, ?_, ?_, ?_, ?_⟩
  · intro code lab hcode hlab
    rw [hr, hcode]
    simp [prettyCell, hlab]
  · intro code hcode hlab
    rw [hr, hcode]
    simp [prettyCell, hlab]
  · intro code lab hcode hlab
    rw [hs, hcode]
    simp [prettyCell, hlab]
  · intro code hcode hlab
    rw [hs, hcode]
    simp [prettyCell, hlab]
  · intro hcode
    rw [hr, hcode]
    simp [prettyCell]

/-- Concrete instantiation of `c7_labels_amended` on `c7DemoFrame`:
`"vp"` is mapped to `"VP"`, `"full_remote"` falls back to itself. -/
theorem c7_labels_amended_witness :
    cellOf ((presentFrame c7DemoFrame).rows.get ⟨0, by decide⟩) "seniority_pretty" =
      some "VP" ∧
    cellOf ((presentFrame c7DemoFrame).rows.get ⟨0, by decide⟩) "remote_policy_pretty" =
      some "full_remote" := by
  have h := c7_labels_amended c7DemoFrame 0 (by decide) (by decide)
  exact ⟨h.2.2.1 "vp" "VP" (by decide) (by decide),
    h.2.1 "full_remote" (by decide) (by decide)⟩

/-- C9: with the source file absent the engine stops with the structured
"data unavailable" condition and never presents a page (no canonical,
filtered, or presented table is produced). -/
theorem c9_source_unavailable (crit : FilterCriteria) :
    runApp none crit = AppResult.sourceUnavailable missingDataMsg ∧
    ∀ pt ex, runApp none crit ≠ AppResult.page pt ex := by
  refine ⟨rfl, ?_⟩
  intro pt ex h
  exact AppResult.noConfusion h

/-- Concrete instantiation of `c9_source_unavailable`. -/
theorem c9_source_unavailable_witness :
    runApp none emptyCriteria = AppResult.sourceUnavailable missingDataMsg :=
  (c9_source_unavailable emptyCriteria).1

/-! ### CSV round-trip lemmas -/

/-- Step: an ordinary character outside quotes extends the field. -/
theorem csvAux_step_plain (sep c : Char) (h1 : c ≠ '"') (h2 : c ≠ sep)
    (h3 : c ≠ '\n') (field : List Char) (row : List String)
    (acc : List (List String)) (cs : List Char) :
    csvAux sep false field row acc (c :: cs) =
      csvAux sep false (field ++ [c]) row acc cs := by
  rw [csvAux.eq_def]
  simp [h1, h2, h3]

/-- Step: the delimiter outside quotes flushes the field into the row. -/
theorem csvAux_step_sep (sep : Char) (h1 : sep ≠ '"') (field : List Char)
    (row : List String) (acc : List (List String)) (cs : List Char) :
    csvAux sep false field row acc (sep :: cs) =
      csvAux sep false [] (row ++ [String.mk field]) acc cs := by
  rw [csvAux.eq_def]
  simp [h1]

/-- Step: a newline outside quotes flushes the row into the records. -/
theorem csvAux_step_newline (sep : Char) (h2 : sep ≠ '\n')
    (field : List Char) (row : List String) (acc : List (List String))
    (cs : List Char) :
    csvAux sep false field row acc ('\n' :: cs) =
      csvAux sep false [] [] (acc ++ [row ++ [String.mk field]]) cs := by
  rw [csvAux.eq_def]
  simp only [Bool.false_eq_true, if_false, ite_false]
  rw [if_neg (by decide : ¬(('\n' : Char) = '"')),
    if_neg (fun hh : ('\n' : Char) = sep => h2 hh.symm)]
  simp

/-- Step: an opening quote enters the quoted state. -/
theorem csvAux_step_open (sep : Char) (field : List Char) (row : List String)
    (acc : List (List String)) (cs : List Char) :
    csvAux sep false field row acc ('"' :: cs) =
      csvAux sep true field row acc cs := by
  rw [csvAux.eq_def]
  simp

/-- Step: inside quotes an ordinary character extends the field. -/
theorem csvAux_step_q_plain (sep c : Char) (h : c ≠ '"') (field : List Char)
    (row : List String) (acc : List (List String)) (cs : List Char) :
    csvAux sep true field row acc (c :: cs) =
      csvAux sep true (field ++ [c]) row acc cs := by
  rw [csvAux.eq_def]
  simp [h]

/-- Step: inside quotes a doubled quote is a literal quote. -/
theorem csvAux_step_q_escape (sep : Char) (field : List Char)
    (row : List String) (acc : List (List String)) (cs : List Char) :
    csvAux sep true field row acc ('"' :: '"' :: cs) =
      csvAux sep true (field ++ ['"']) row acc cs := by
  rw [csvAux.eq_def]
  simp

/-- Step: inside quotes a quote not followed by a quote closes the field. -/
theorem csvAux_step_q_close (sep : Char) (cs : List Char)
    (hcs : cs.head? ≠ some '"') (field : List Char) (row : List String)
    (acc : List (List String)) :
    csvAux sep true field row acc ('"' :: cs) =
      csvAux sep false field row acc cs := by
  cases cs with
  | nil => simp [csvAux]
  | cons h t =>
      have hh : ¬(h = '"') := fun hhh => hcs (by rw [hhh]; rfl)
      rw [csvAux.eq_def]
      simp only [if_pos rfl, if_true, ite_true]
      split
      next cs0 cs2 heq =>
        injection heq with ha hb
        exact absurd ha hh
      next => rfl

/-- Consuming ordinary characters in the unquoted state appends them to
the current field. -/
theorem csvAux_plain (sep : Char) :
    ∀ ds : List Char, (∀ c ∈ ds, c ≠ sep ∧ c ≠ '"' ∧ c ≠ '\n') →
    ∀ field row acc rest,
      csvAux sep false field row acc (ds ++ rest) =
        csvAux sep false (field ++ ds) row acc rest := by
  intro ds
  induction ds with
  | nil =>
      intro _ field row acc rest
      simp
  | cons d ds ih =>
      intro hds field row acc rest
      obtain ⟨h1, h2, h3⟩ := hds d (List.mem_cons_self d ds)
      rw [List.cons_append, csvAux_step_plain sep d h2 h1 h3,
        ih (fun c hc => hds c (List.mem_cons_of_mem d hc)) (field ++ [d])]
      simp

/-- Consuming escaped field content in the quoted state, up to the closing
quote, appends the unescaped content to the current field. -/
theorem csvAux_quoted (sep : Char) :
    ∀ ds : List Char, ∀ field row acc rest,
      rest.head? ≠ some '"' →
      csvAux sep true field row acc (escQuotes ds ++ ('"' :: rest)) =
        csvAux sep false (field ++ ds) row acc rest := by
  intro ds
  induction ds with
  | nil =>
      intro field row acc rest hrest
      simp only [escQuotes, List.nil_append]
      rw [csvAux_step_q_close sep rest hrest]
      simp
  | cons d ds ih =>
      intro field row acc rest hrest
      by_cases hd : d = '"'
      · subst hd
        rw [show escQuotes ('"' :: ds) = '"' :: '"' :: escQuotes ds from rfl,
          List.cons_append, List.cons_append,
          csvAux_step_q_escape sep field row acc,
          ih (field ++ ['"']) row acc rest hrest]
        simp
      · rw [show escQuotes (d :: ds) = d :: escQuotes ds by
            simp [escQuotes, hd],
          List.cons_append, csvAux_step_q_plain sep d hd,
          ih (field ++ [d]) row acc rest hrest]
        simp

/-- Consuming one escaped field in the unquoted state with empty current
field leaves the characters of that field as the current field. -/
theorem csvAux_field (sep : Char) (_hsep1 : sep ≠ '"') (f : String) :
    ∀ row acc rest, rest.head? ≠ some '"' →
      csvAux sep false [] row acc (escapeField sep f ++ rest) =
        csvAux sep false f.data row acc rest := by
  intro row acc rest hrest
  unfold escapeField
  by_cases hq : needsQuote sep f = true
  · rw [if_pos hq, List.cons_append, csvAux_step_open sep,
      List.append_assoc, List.singleton_append,
      csvAux_quoted sep f.data [] row acc rest hrest]
    simp
  · rw [if_neg hq]
    have hq2 : needsQuote sep f = false := (Bool.not_eq_true _) ▸ hq
    have hchars : ∀ c ∈ f.data, c ≠ sep ∧ c ≠ '"' ∧ c ≠ '\n' := by
      unfold needsQuote at hq2
      rw [List.any_eq_false] at hq2
      intro c hc
      have h3 := hq2 c hc
      simp only [Bool.or_eq_true, beq_iff_eq, not_or] at h3
      exact ⟨h3.1.1.1, h3.1.1.2, h3.1.2⟩
    rw [csvAux_plain sep f.data hchars [] row acc rest]
    simp

/-- Consuming one rendered record plus its terminating newline flushes the
record. -/
theorem csvAux_record (sep : Char) (hsep1 : sep ≠ '"') (hsep2 : sep ≠ '\n') :
    ∀ fs : List String, fs ≠ [] → ∀ row acc rest,
      csvAux sep false [] row acc (renderRecord sep fs ++ ('\n' :: rest)) =
        csvAux sep false [] [] (acc ++ [row ++ fs]) rest := by
  intro fs
  induction fs with
  | nil => intro h; exact absurd rfl h
  | cons f fs ih =>
      intro _ row acc rest
      cases fs with
      | nil =>
          rw [show renderRecord sep [f] = escapeField sep f from rfl,
            csvAux_field sep hsep1 f row acc ('\n' :: rest)
              (fun hh => absurd (Option.some.inj hh) (by decide)),
            csvAux_step_newline sep hsep2]
      | cons g gs =>
          rw [show renderRecord sep (f :: g :: gs) =
              escapeField sep f ++ (sep :: renderRecord sep (g :: gs)) from rfl,
            List.append_assoc, List.cons_append,
            csvAux_field sep hsep1 f row acc _
              (by
                intro hh
                simp only [List.head?] at hh
                exact hsep1 (by injection hh)),
            csvAux_step_sep sep hsep1,
            ih (by simp) (row ++ [String.mk f.data]) acc rest]
          simp

/-- Parsing the rendered table prepends its records to the accumulator. -/
theorem csvAux_renderCsv (sep : Char) (hsep1 : sep ≠ '"') (hsep2 : sep ≠ '\n') :
    ∀ rows : List (List String), (∀ r ∈ rows, r ≠ []) → ∀ acc,
      csvAux sep false [] [] acc (renderCsv sep rows) = acc ++ rows := by
  intro rows
  induction rows with
  | nil =>
      intro _ acc
      simp [renderCsv, csvAux]
  | cons r rs ih =>
      intro hne acc
      rw [show renderCsv sep (r :: rs) =
          (renderRecord sep r ++ ['\n']) ++ renderCsv sep rs from by
            simp [renderCsv],
        List.append_assoc, List.singleton_append,
        csvAux_record sep hsep1 hsep2 r (hne r (List.mem_cons_self r rs)) [] acc,
        ih (fun x hx => hne x (List.mem_cons_of_mem r hx)) (acc ++ [[] ++ r])]
      simp

/-- The writer-reader round trip: parsing the rendered table gives back
exactly the rows, provided the delimiter is not a quote or newline and no
record is empty. -/
theorem parse_renderCsv (sep : Char) (hsep1 : sep ≠ '"') (hsep2 : sep ≠ '\n')
    (rows : List (List String)) (h : ∀ r ∈ rows, r ≠ []) :
    parseCsv sep (renderCsv sep rows) = rows := by
  have := csvAux_renderCsv sep hsep1 hsep2 rows h []
  simpa [parseCsv] using this

/-- C8: the export of a presented table is exactly one header row of the
display labels followed by one row per presented record in the same
order, delimited by `";"`; and parsing the exported text back with that
delimiter reproduces the header and the presented values exactly. -/
theorem c8_export_roundtrip (g : Frame) :
    exportText (presentFrame g) =
      renderCsv ';' (exportLabels (presentFrame g) ::
        exportRows (presentFrame g)) ∧
    parseCsv ';' (exportText (presentFrame g)) =
      exportLabels (presentFrame g) :: exportRows (presentFrame g) := by
  have hne : (presentFrame g).cols ≠ [] := by
    intro h0
    have hm := (pretty_mem_existing g).2
    have hcols : (presentFrame g).cols =
        displayCols.filter (fun c =>
          (colsAdd (colsAdd g.cols "remote_policy_pretty")
            "seniority_pretty").contains c) := rfl
    rw [← hcols, h0] at hm
    exact List.not_mem_nil _ hm
  refine ⟨rfl, ?_⟩
  apply parse_renderCsv ';' (by decide) (by decide)
  intro r hr
  rcases List.mem_cons.mp hr with rfl | hr2
  · intro h0
    exact hne (List.map_eq_nil_iff.mp h0)
  · obtain ⟨row, hrow, rfl⟩ := List.mem_map.mp hr2
    intro h0
    exact hne (List.map_eq_nil_iff.mp h0)

end JobsViewer
